import Mathlib

/-!
Verification of the `csv2txt` table renderer (`src/csv2txt/csv2txt.py`).

Python strings are modelled as `List Char` (`Str`).  Fallible operations
(Python code that can raise) return `Except String _`.  Machine integers are
`Int`/`Nat` (Python ints are unbounded, so no wrap-around is needed).
-/

namespace Csv2txt

/-- Python strings are modelled as lists of characters. -/
abbrev Str := List Char

/-- Convenience coercion from Lean string literals to the model. -/
def str (s : String) : Str := s.toList

/-- `class Align(Enum)` (csv2txt.py lines 13-16). -/
inductive Align where
  | left
  | right
  | center
deriving DecidableEq, Repr

/-- `class VAlign(Enum)` (csv2txt.py lines 19-22). -/
inductive VAlign where
  | top
  | middle
  | bottom
deriving DecidableEq, Repr

/--
`@dataclass class CSV2TXT` (csv2txt.py lines 25-46).

`border_symbols` is a space-separated string of 11 glyphs in the source;
`.split()` on it is pure whitespace tokenization, so the 11 tokens are
modelled directly as the fields `H V TL TM TR ML MM MR BL BM BR`
(in the unpacking order of line 153).
-/
structure CSV2TXT where
  H : Str := str "─"
  V : Str := str "│"
  TL : Str := str "┌"
  TM : Str := str "┬"
  TR : Str := str "┐"
  ML : Str := str "├"
  MM : Str := str "┼"
  MR : Str := str "┤"
  BL : Str := str "└"
  BM : Str := str "┴"
  BR : Str := str "┘"
  spacing : Int := 1
  separator : Char := ','
  max_width : Option Int := none
  align : Option (List Align) := none
  valign : VAlign := VAlign.middle
  title_align : Align := Align.center
deriving Repr

/-- `__post_init__` clamps the spacing: `self.spacing = max(0, self.spacing)`
(line 46).  The clamped value is a natural number. -/
def CSV2TXT.spc (cfg : CSV2TXT) : Nat := cfg.spacing.toNat

/-- The default configuration (all dataclass defaults). -/
def dfltCfg : CSV2TXT := {}

/--
Recursion core of Python `str.replace(old, new)`: scan left to right,
replacing each non-overlapping occurrence of `pat` by `rep`.  The first
argument is fuel making the recursion structural; every scan step consumes
at least one character, so fuel equal to the string length suffices
(`pyReplace` supplies exactly that), and the fuel-exhausted branch is
unreachable there.
-/
def pyReplaceGo (pat rep : Str) : Nat → Str → Str
  | _, [] => []
  | 0, s => s
  | n + 1, c :: rest =>
    if pat ≠ [] ∧ pat.isPrefixOf (c :: rest) then
      rep ++ pyReplaceGo pat rep n ((c :: rest).drop pat.length)
    else
      c :: pyReplaceGo pat rep n rest

/-- Python `str.replace(old, new)` (see `pyReplaceGo`). -/
def pyReplace (s : Str) (pat rep : Str) : Str :=
  pyReplaceGo pat rep s.length s

/--
Python `str.splitlines()` restricted to the `\n` line break (the only break
character the renderer itself introduces): empty string gives `[]`, a
trailing `\n` produces no trailing empty entry, and blank lines between
breaks are kept as empty entries.
-/
def splitlinesGo (cur : Str) : Str → List Str
  | [] => [cur.reverse]
  | c :: rest =>
    if c = '\n' then
      cur.reverse :: (if rest = [] then [] else splitlinesGo [] rest)
    else
      splitlinesGo (c :: cur) rest

/-- Python `str.splitlines()` (see `splitlinesGo`). -/
def splitlines (s : Str) : List Str :=
  if s = [] then [] else splitlinesGo [] s

/-- `CSV2TXT.escape` (lines 49-57): unescape `\n` to a line break, then the
escaped separator to a literal separator. -/
def escape (cfg : CSV2TXT) (t : Str) : Str :=
  pyReplace (pyReplace t ['\\', 'n'] ['\n']) ['\\', cfg.separator] [cfg.separator]

/-- Whitespace characters recognised by `textwrap` chunking (the subset that
can occur in a line already split on line breaks). -/
def isSpaceChar (c : Char) : Bool :=
  c = ' ' || c = '\t' || c = '\r' || c = '\n'

/-- Split a line into whitespace-free words, dropping the whitespace (the
effect of `textwrap`'s default `replace_whitespace` + `drop_whitespace`). -/
def splitWordsGo (cur : Str) : Str → List Str
  | [] => if cur = [] then [] else [cur.reverse]
  | c :: rest =>
    if isSpaceChar c then
      if cur = [] then splitWordsGo [] rest
      else cur.reverse :: splitWordsGo [] rest
    else
      splitWordsGo (c :: cur) rest

/-- See `splitWordsGo`. -/
def splitWords (s : Str) : List Str := splitWordsGo [] s

/-- Sum of a list of naturals. -/
def sumNat : List Nat → Nat
  | [] => 0
  | n :: l => n + sumNat l

/-- Python `max` over a list of naturals, with `0` for the empty list.  Every
use below mirrors a `max(...)` in the source whose argument is non-empty on
that path (Python raises on an empty argument; the one reachable empty case,
`max` over the heights of a zero-cell row, is modelled explicitly as an error
in `renderRow`). -/
def maxNat : List Nat → Nat
  | [] => 0
  | n :: l => max n (maxNat l)

/--
Greedy line filling of `textwrap.wrap`'s default configuration: words are
packed left to right separated by single spaces; a word longer than the
width is broken into width-sized pieces.  (`break_on_hyphens` and the exact
placement of over-long words on partially filled lines are not modelled; no
claim depends on wrapped content at positive widths.)  `max 1 width` only
serves termination: every caller has `width ≥ 1`.
-/
def fillWordsGo (width : Nat) : Nat → Str → List Str → List Str
  | 0, cur, l => if cur = [] then l else cur :: l
  | _ + 1, cur, [] => if cur = [] then [] else [cur]
  | n + 1, cur, w :: ws =>
    if cur = [] then
      if w.length ≤ width then fillWordsGo width n w ws
      else w.take (max 1 width) :: fillWordsGo width n [] (w.drop (max 1 width) :: ws)
    else
      if cur.length + 1 + w.length ≤ width then fillWordsGo width n (cur ++ ' ' :: w) ws
      else cur :: fillWordsGo width n [] (w :: ws)

/-- Entry point of `fillWordsGo` with enough fuel: every step either consumes
a whole word or at least one character of one, so twice the total size bounds
the number of steps and the fuel-exhausted branch is unreachable. -/
def fillWords (width : Nat) (cur : Str) (l : List Str) : List Str :=
  fillWordsGo width (2 * sumNat (l.map (fun x => x.length + 1)) + 1) cur l

/--
Model of CPython `textwrap.wrap(line, width)` with default options:
raises `ValueError` for `width ≤ 0` (before looking at the text), otherwise
splits the line into whitespace-separated words and greedily fills lines
(an empty or whitespace-only line therefore yields zero output lines).
-/
def pyWrap (line : Str) (width : Int) : Except String (List Str) :=
  if width ≤ 0 then .error "invalid width (must be > 0)"
  else .ok (fillWords width.toNat [] (splitWords line))

/-- The loop of `wrap_cell` (lines 70-72): for each line, wrap it when
`self.max_width` is truthy (set and non-zero), otherwise keep it as-is;
concatenate the results in order. -/
def wrapLines (cfg : CSV2TXT) : List Str → Except String (List Str)
  | [] => .ok []
  | line :: rest => do
    let w ←
      match cfg.max_width with
      | some mw => if mw ≠ 0 then pyWrap line mw else .ok [line]
      | none => .ok [line]
    let ws ← wrapLines cfg rest
    pure (w ++ ws)

/-- `CSV2TXT.wrap_cell` (lines 60-74): `None` becomes a single empty line;
otherwise escape, split on line breaks, wrap each line (`for line in lines
or ['']`), and guard the final result against emptiness (`wrapped or ['']`). -/
def wrap_cell (cfg : CSV2TXT) (text : Option Str) : Except String (List Str) :=
  match text with
  | none => .ok [[]]
  | some t =>
    let lines := splitlines (escape cfg t)
    (wrapLines cfg (if lines = [] then [[]] else lines)).map
      (fun wrapped => if wrapped = [] then [[]] else wrapped)

/-- Python `s.ljust(width)` (space fill). -/
def pyLjust (s : Str) (width : Nat) : Str :=
  s ++ List.replicate (width - s.length) ' '

/-- Python `s.rjust(width)` (space fill). -/
def pyRjust (s : Str) (width : Nat) : Str :=
  List.replicate (width - s.length) ' ' ++ s

/-- Python `s.center(width)` (space fill).  CPython puts
`marg / 2 + (marg & width & 1)` characters on the left. -/
def pyCenter (s : Str) (width : Nat) : Str :=
  if width ≤ s.length then s
  else
    let marg := width - s.length
    let left := marg / 2 + (marg &&& width &&& 1)
    List.replicate left ' ' ++ s ++ List.replicate (marg - left) ' '

/-- `CSV2TXT.align_text` (lines 77-84): dispatch on the alignment enum. -/
def align_text (text : Str) (width : Nat) (a : Align) : Str :=
  match a with
  | .left => pyLjust text width
  | .right => pyRjust text width
  | .center => pyCenter text width

/-- `CSV2TXT.align_cell` (lines 87-96): per-column alignment, defaulting to
left for columns beyond the configured list (or when no list is set). -/
def align_cell (cfg : CSV2TXT) (text : Str) (width : Nat) (column : Nat) : Str :=
  let a :=
    match cfg.align with
    | some l => if column < l.length then l.getD column Align.left else Align.left
    | none => Align.left
  align_text text width a

/-- States of the CPython `_csv` field tokenizer (the states reachable
within a single record with default quoting). -/
inductive CsvState where
  | startField
  | inField
  | inQuoted
  | quoteInQuoted
  | eatCrnl
deriving DecidableEq, Repr

/--
One step per character of CPython's `csv.reader` tokenizer with
`delimiter = sep`, `skipinitialspace = True`, default quoting
(`quotechar = '"'`, `doublequote = True`, non-strict).  `field` is the field
accumulated so far, `fields` the completed fields of the row.  As in
CPython, a line-break character in an unquoted field context saves the field
and enters `EAT_CRNL`, where any further non-break character raises
`csv.Error` ("new-line character seen in unquoted field"); end of input
inside a quoted field raises `csv.Error` ("unexpected end of data", the
behaviour at the end of the input — a quoted field that would instead
continue onto a following input line is not modelled; no claim involves
quotes).
-/
def csvGo (sep : Char) : CsvState → Str → List Str → Str → Except String (List Str)
  | .startField, field, fields, [] => .ok (fields ++ [field])
  | .startField, field, fields, c :: rest =>
    if c = '\n' ∨ c = '\r' then csvGo sep .eatCrnl [] (fields ++ [field]) rest
    else if c = '"' then csvGo sep .inQuoted field fields rest
    else if c = ' ' then csvGo sep .startField field fields rest
    else if c = sep then csvGo sep .startField [] (fields ++ [field]) rest
    else csvGo sep .inField (field ++ [c]) fields rest
  | .inField, field, fields, [] => .ok (fields ++ [field])
  | .inField, field, fields, c :: rest =>
    if c = '\n' ∨ c = '\r' then csvGo sep .eatCrnl [] (fields ++ [field]) rest
    else if c = sep then csvGo sep .startField [] (fields ++ [field]) rest
    else csvGo sep .inField (field ++ [c]) fields rest
  | .inQuoted, _, _, [] => .error "unexpected end of data"
  | .inQuoted, field, fields, c :: rest =>
    if c = '"' then csvGo sep .quoteInQuoted field fields rest
    else csvGo sep .inQuoted (field ++ [c]) fields rest
  | .quoteInQuoted, field, fields, [] => .ok (fields ++ [field])
  | .quoteInQuoted, field, fields, c :: rest =>
    if c = '\n' ∨ c = '\r' then csvGo sep .eatCrnl [] (fields ++ [field]) rest
    else if c = '"' then csvGo sep .inQuoted (field ++ ['"']) fields rest
    else if c = sep then csvGo sep .startField [] (fields ++ [field]) rest
    else csvGo sep .inField (field ++ [c]) fields rest
  | .eatCrnl, _, fields, [] => .ok fields
  | .eatCrnl, field, fields, c :: rest =>
    if c = '\n' ∨ c = '\r' then csvGo sep .eatCrnl field fields rest
    else .error "new-line character seen in unquoted field"

/-- One row of `csv.reader` per input line: an empty line yields a row with
zero fields, a line beginning with a line break enters `EAT_CRNL` with no
field saved (so a lone `"\r\n"` also yields the zero-field row), and any
other line is tokenized by `csvGo` from `START_FIELD`. -/
def parseCsvLine (sep : Char) (s : Str) : Except String (List Str) :=
  match s with
  | [] => .ok []
  | c :: rest =>
    if c = '\n' ∨ c = '\r' then csvGo sep .eatCrnl [] [] rest
    else csvGo sep .startField [] [] (c :: rest)

/-- `exMapM f` is `[f a for a in l]` where each `f a` may raise. -/
def exMapM (f : α → Except String β) : List α → Except String (List β)
  | [] => .ok []
  | a :: l => do
    let b ← f a
    let l' ← exMapM f l
    pure (b :: l')

/-- The placeholder string of `get_rows` (line 103). -/
def comPlaceholder : Str := str "__COMMA__"

/-- `CSV2TXT.get_rows` (lines 99-109): replace each escaped separator by the
`__COMMA__` placeholder, tokenize each line with the csv reader (whose
`csv.Error`s propagate), then replace the placeholder back by the separator
in every cell. -/
def get_rows (cfg : CSV2TXT) (input : List Str) :
    Except String (List (List Str)) :=
  let lines := input.map (fun l => pyReplace l ['\\', cfg.separator] comPlaceholder)
  (exMapM (parseCsvLine cfg.separator) lines).map
    (List.map (List.map (fun cell => pyReplace cell comPlaceholder [cfg.separator])))

/-- Lines 138-142 of `generate`: wrap every cell, then right-pad each row to
the maximum raw row length with single-empty-line cells
(`row.extend([['']] * (cols - len(row)))`). -/
def gridCells (cfg : CSV2TXT) (rows : List (List Str)) :
    Except String (List (List (List Str))) :=
  (exMapM (fun row => exMapM (fun c => wrap_cell cfg (some c)) row) rows).map
    (fun cells =>
      let cols := maxNat (rows.map List.length)
      cells.map (fun row =>
        if row.length < cols then row ++ List.replicate (cols - row.length) [[]]
        else row))

/-- Lines 144-148 of `generate`: per-column content width, the maximum line
length over all lines of all cells in that column.  `row.getD col []` models
the Python `row[col]`, which is in bounds after padding. -/
def colsWidth (cells : List (List (List Str))) (cols : Nat) : List Nat :=
  (List.range cols).map (fun col =>
    maxNat (cells.flatMap (fun row => (row.getD col []).map List.length)))

/-- Line 150: `spaced_cols = [width + self.spacing * 2 for width in cols_width]`. -/
def spacedCols (cfg : CSV2TXT) (widths : List Nat) : List Nat :=
  widths.map (fun w => w + cfg.spc * 2)

/-- Line 151: `total_width = sum(spaced_cols) + (len(spaced_cols) - 1)`.
On every path where this value reaches the output there is at least one
column, so the Python `- 1` agrees with the truncated subtraction. -/
def totalWidth (cfg : CSV2TXT) (widths : List Nat) : Nat :=
  sumNat (spacedCols cfg widths) + ((spacedCols cfg widths).length - 1)

/-- Python `s * n` for a string: `n` concatenated copies. -/
def pyRepeat (s : Str) (n : Nat) : Str :=
  (List.replicate n s).flatten

/-- Python `sep.join(parts)`. -/
def pyJoin (sep : Str) : List Str → Str
  | [] => []
  | [x] => x
  | x :: xs => x ++ sep ++ pyJoin sep xs

/-- `make_separator` (lines 156-160):
`left + center.join(H * w for w in spaced_cols) + right`. -/
def make_separator (cfg : CSV2TXT) (spaced : List Nat) (left center right : Str) : Str :=
  left ++ pyJoin center (spaced.map (fun w => pyRepeat cfg.H w)) ++ right

/-- Lines 167-176 of `generate`: the plain top separator when the title is
absent or empty (`if not title`), otherwise the three-line title block. -/
def headerLines (cfg : CSV2TXT) (title : Option Str) (spaced : List Nat)
    (total : Nat) : List Str :=
  match title with
  | none => [make_separator cfg spaced cfg.TL cfg.TM cfg.TR]
  | some t =>
    if t = [] then [make_separator cfg spaced cfg.TL cfg.TM cfg.TR]
    else
      let title_text := align_text (' ' :: (t ++ [' '])) total cfg.title_align
      [cfg.TL ++ pyRepeat cfg.H total ++ cfg.TR,
       cfg.V ++ title_text ++ cfg.V,
       make_separator cfg spaced cfg.ML cfg.TM cfg.MR]

/-- Lines 183-198 of `generate`: vertical padding of one cell to the row
height.  `delta = max_height - len(col)` is non-negative in context. -/
def vpad (cfg : CSV2TXT) (max_height : Nat) (col : List Str) : List Str :=
  let delta := max_height - col.length
  match cfg.valign with
  | .top => col ++ List.replicate delta []
  | .bottom => List.replicate delta [] ++ col
  | .middle =>
    let top_space := delta / 2
    let bottom_space := delta - top_space
    List.replicate top_space [] ++ col ++ List.replicate bottom_space []

/-- Lines 178-208 of `generate`, one iteration of the row loop: compute the
row height (Python `max(rows_height)` raises on a zero-cell row), vertically
pad every cell, then emit one text line per sub-row, aligning each cell to
its column width and surrounding it with `spacing` blanks.
`cell.getD line []` models the Python `cell[line]`, in bounds after padding. -/
def renderRow (cfg : CSV2TXT) (cols_width : List Nat) (row : List (List Str)) :
    Except String (List Str) :=
  let rows_height := row.map List.length
  if rows_height = [] then .error "max() arg is an empty sequence"
  else
    let max_height := maxNat rows_height
    let spaced_cells := row.map (vpad cfg max_height)
    .ok ((List.range max_height).map (fun line =>
      let parts := spaced_cells.enum.map (fun p =>
        let text := (p.2).getD line []
        let content := align_cell cfg text (cols_width.getD p.1 0) p.1
        List.replicate cfg.spc ' ' ++ content ++ List.replicate cfg.spc ' ')
      cfg.V ++ pyJoin cfg.V parts ++ cfg.V))

/-- The row blocks joined by the middle separator: the loop appends `middle`
after every row except the last (line 210). -/
def interposeRows (middle : Str) : List (List Str) → List Str
  | [] => []
  | [b] => b
  | b :: bs => b ++ middle :: interposeRows middle bs

/-- `CSV2TXT.generate` (lines 131-213) up to the final `'\n'.join`: the list
of output lines.  A `csv.Error` from `get_rows` propagates (line 135);
empty parsed input returns no lines (line 136). -/
def generate_lines (cfg : CSV2TXT) (input : List Str) (title : Option Str) :
    Except String (List Str) := do
  let rows ← get_rows cfg input
  if rows = [] then .ok []
  else do
    let cells ← gridCells cfg rows
    let cols := maxNat (rows.map List.length)
    let cols_width := colsWidth cells cols
    let spaced := spacedCols cfg cols_width
    let total := totalWidth cfg cols_width
    let body ← exMapM (renderRow cfg cols_width) cells
    let middle := make_separator cfg spaced cfg.ML cfg.MM cfg.MR
    let bottom := make_separator cfg spaced cfg.BL cfg.BM cfg.BR
    pure (headerLines cfg title spaced total ++ interposeRows middle body ++ [bottom])

/-- `CSV2TXT.generate` (line 213): the lines joined with a single line-break
character; zero lines give the empty string. -/
def generate (cfg : CSV2TXT) (input : List Str) (title : Option Str) :
    Except String Str :=
  (generate_lines cfg input title).map (pyJoin ['\n'])

/-! ## Helper lemmas -/

/-- Every member of a list is bounded by `maxNat`. -/
theorem le_maxNat {l : List Nat} {x : Nat} (hx : x ∈ l) : x ≤ maxNat l := by
  induction l with
  | nil => cases hx
  | cons a l ih =>
    rcases List.mem_cons.mp hx with h | h
    · subst h; exact Nat.le_max_left _ _
    · exact le_trans (ih h) (Nat.le_max_right _ _)

/-- `exMapM` preserves list length. -/
theorem exMapM_ok_length {f : α → Except String β} :
    ∀ {l : List α} {l' : List β}, exMapM f l = .ok l' → l'.length = l.length := by
  intro l
  induction l with
  | nil => intro l' h; cases h; rfl
  | cons a l ih =>
    intro l' h
    simp only [exMapM, bind, Except.bind] at h
    cases hfa : f a with
    | error e => rw [hfa] at h; cases h
    | ok b =>
      rw [hfa] at h
      cases hl : exMapM f l with
      | error e => rw [hl] at h; cases h
      | ok bs =>
        rw [hl] at h
        cases h
        simp [ih hl]

/-- Every member of a successful `exMapM` image comes from a member of the
source list. -/
theorem exMapM_ok_mem {f : α → Except String β} :
    ∀ {l : List α} {l' : List β}, exMapM f l = .ok l' →
      ∀ b ∈ l', ∃ a ∈ l, f a = .ok b := by
  intro l
  induction l with
  | nil => intro l' h; cases h; intro b hb; cases hb
  | cons a l ih =>
    intro l' h
    simp only [exMapM, bind, Except.bind] at h
    cases hfa : f a with
    | error e => rw [hfa] at h; cases h
    | ok b0 =>
      rw [hfa] at h
      cases hl : exMapM f l with
      | error e => rw [hl] at h; cases h
      | ok bs =>
        rw [hl] at h
        cases h
        intro b hb
        rcases List.mem_cons.mp hb with h | h
        · exact ⟨a, List.mem_cons_self a l, h ▸ hfa⟩
        · rcases ih hl b h with ⟨a', ha', hfa'⟩
          exact ⟨a', List.mem_cons_of_mem a ha', hfa'⟩

/-- Indexwise description of a successful `exMapM`. -/
theorem exMapM_ok_getElem? {f : α → Except String β} :
    ∀ {l : List α} {l' : List β}, exMapM f l = .ok l' →
      ∀ {i : Nat} {a : α}, l[i]? = some a →
        ∃ b, l'[i]? = some b ∧ f a = .ok b := by
  intro l
  induction l with
  | nil => intro l' h i a ha; cases ha
  | cons x l ih =>
    intro l' h i a ha
    simp only [exMapM, bind, Except.bind] at h
    cases hfa : f x with
    | error e => rw [hfa] at h; cases h
    | ok b0 =>
      rw [hfa] at h
      cases hl : exMapM f l with
      | error e => rw [hl] at h; cases h
      | ok bs =>
        rw [hl] at h
        cases h
        cases i with
        | zero =>
          simp only [List.getElem?_cons_zero, Option.some.injEq] at ha
          subst ha
          exact ⟨b0, by simp, hfa⟩
        | succ i =>
          simp only [List.getElem?_cons_succ] at ha ⊢
          exact ih hl ha

/-- A pointwise-succeeding `exMapM` succeeds. -/
theorem exMapM_ok_of_forall {f : α → Except String β} :
    ∀ {l : List α}, (∀ a ∈ l, ∃ b, f a = .ok b) →
      ∃ l', exMapM f l = .ok l' := by
  intro l
  induction l with
  | nil => intro _; exact ⟨[], rfl⟩
  | cons a l ih =>
    intro h
    rcases h a (List.mem_cons_self a l) with ⟨b, hb⟩
    rcases ih (fun a' ha' => h a' (List.mem_cons_of_mem a ha')) with ⟨l', hl'⟩
    exact ⟨b :: l', by simp [exMapM, bind, Except.bind, pure, Except.pure, hb, hl']⟩

/-- When `max_width` is `None` or the falsy `0`, the wrapping loop keeps every
line as-is. -/
theorem wrapLines_id (cfg : CSV2TXT)
    (hw : cfg.max_width = none ∨ cfg.max_width = some 0) :
    ∀ l : List Str, wrapLines cfg l = .ok l := by
  intro l
  induction l with
  | nil => rfl
  | cons x xs ih =>
    rcases hw with h | h <;>
      simp [wrapLines, h, ih, bind, Except.bind, pure, Except.pure]

/-- Shared content of claims C3/C4: with `max_width` absent or `0`,
`wrap_cell` returns exactly the split lines (guarded against emptiness). -/
theorem wrap_cell_nowrap (cfg : CSV2TXT) (t : Str)
    (hw : cfg.max_width = none ∨ cfg.max_width = some 0) :
    wrap_cell cfg (some t) =
      .ok (if splitlines (escape cfg t) = [] then [[]]
           else splitlines (escape cfg t)) := by
  simp only [wrap_cell]
  rw [wrapLines_id cfg hw]
  by_cases h : splitlines (escape cfg t) = [] <;> simp [h, Except.map]

/-- The wrapping loop succeeds whenever `max_width` is absent or
non-negative. -/
theorem wrapLines_ok (cfg : CSV2TXT)
    (hw : cfg.max_width = none ∨ ∃ w, cfg.max_width = some w ∧ 0 ≤ w) :
    ∀ l : List Str, ∃ l', wrapLines cfg l = .ok l' := by
  intro l
  induction l with
  | nil => exact ⟨[], rfl⟩
  | cons x xs ih =>
    rcases ih with ⟨l', hl'⟩
    rcases hw with h | ⟨w, hw', hw0⟩
    · exact ⟨x :: l', by simp [wrapLines, h, hl', bind, Except.bind, pure, Except.pure]⟩
    · by_cases hz : w = 0
      · subst hz
        exact ⟨x :: l', by simp [wrapLines, hw', hl', bind, Except.bind, pure, Except.pure]⟩
      · have hpos : ¬ w ≤ 0 := by omega
        exact ⟨fillWords w.toNat [] (splitWords x) ++ l',
          by simp [wrapLines, hw', hz, pyWrap, hpos, hl', bind, Except.bind, pure, Except.pure]⟩

/-- `wrap_cell` succeeds whenever `max_width` is absent or non-negative. -/
theorem wrap_cell_ok (cfg : CSV2TXT)
    (hw : cfg.max_width = none ∨ ∃ w, cfg.max_width = some w ∧ 0 ≤ w)
    (t : Option Str) : ∃ l, wrap_cell cfg t = .ok l := by
  match t with
  | none => exact ⟨[[]], rfl⟩
  | some s =>
    rcases wrapLines_ok cfg hw
      (if splitlines (escape cfg s) = [] then [[]] else splitlines (escape cfg s)) with ⟨l', hl'⟩
    exact ⟨if l' = [] then [[]] else l', by simp [wrap_cell, hl', Except.map]⟩

/-- `gridCells` succeeds whenever `max_width` is absent or non-negative. -/
theorem gridCells_ok (cfg : CSV2TXT) (rows : List (List Str))
    (hw : cfg.max_width = none ∨ ∃ w, cfg.max_width = some w ∧ 0 ≤ w) :
    ∃ g, gridCells cfg rows = .ok g := by
  rcases exMapM_ok_of_forall
      (f := fun row => exMapM (fun c => wrap_cell cfg (some c)) row)
      (l := rows)
      (fun row _ => exMapM_ok_of_forall (fun c _ => wrap_cell_ok cfg hw (some c))) with
    ⟨cells, hcells⟩
  cases hgr : gridCells cfg rows with
  | ok g => exact ⟨g, rfl⟩
  | error e =>
    unfold gridCells at hgr
    rw [hcells] at hgr
    simp [Except.map] at hgr

/-- Every row of a successful grid has at least the grid column count. -/
theorem gridCells_row_length (cfg : CSV2TXT) (rows : List (List Str))
    (g : List (List (List Str))) (hg : gridCells cfg rows = .ok g) :
    ∀ r ∈ g, maxNat (rows.map List.length) ≤ r.length := by
  simp only [gridCells, Except.map] at hg
  cases hc : exMapM (fun row => exMapM (fun c => wrap_cell cfg (some c)) row) rows with
  | error e => rw [hc] at hg; cases hg
  | ok cells =>
    rw [hc] at hg
    cases hg
    intro r hr
    rcases List.mem_map.mp hr with ⟨c, _, hpad⟩
    subst hpad
    split
    · simp only [List.length_append, List.length_replicate]
      omega
    · omega

/-- `renderRow` succeeds on any row with at least one cell. -/
theorem renderRow_ok (cfg : CSV2TXT) (cw : List Nat) (row : List (List Str))
    (hrow : row ≠ []) : ∃ ls, renderRow cfg cw row = .ok ls := by
  have h : row.map List.length ≠ [] := by
    simpa using hrow
  cases hrr : renderRow cfg cw row with
  | ok ls => exact ⟨ls, rfl⟩
  | error e =>
    simp [renderRow, h] at hrr

/-- `generate` on empty parsed input. -/
theorem generate_of_no_rows (cfg : CSV2TXT) (input : List Str)
    (title : Option Str) (h : get_rows cfg input = .ok []) :
    generate cfg input title = .ok [] := by
  simp [generate, generate_lines, h, bind, Except.bind, Except.map, pyJoin]

/-- Length of a repeated string: `|s * n| = n * |s|`. -/
theorem pyRepeat_length (s : Str) (n : Nat) : (pyRepeat s n).length = n * s.length := by
  induction n with
  | zero => simp [pyRepeat]
  | succ n ih =>
    have hstep : pyRepeat s (n + 1) = s ++ pyRepeat s n := by
      simp [pyRepeat, List.replicate_succ]
    rw [hstep, List.length_append, ih, Nat.succ_mul]
    omega

/-- Length of a joined list: content plus one separator between neighbours. -/
theorem pyJoin_length (sep : Str) (l : List Str) (hl : l ≠ []) :
    (pyJoin sep l).length = sumNat (l.map List.length) + (l.length - 1) * sep.length := by
  induction l with
  | nil => exact absurd rfl hl
  | cons x xs ih =>
    cases xs with
    | nil => simp [pyJoin, sumNat]
    | cons y ys =>
      have hne : (y :: ys : List Str) ≠ [] := by simp
      have hrec := ih hne
      simp only [List.map_cons, sumNat, List.length_cons, Nat.add_sub_cancel] at hrec ⊢
      show (x ++ sep ++ pyJoin sep (y :: ys)).length = _
      rw [List.length_append, List.length_append, hrec, Nat.succ_mul]
      omega

/-- Length of one separator line: the end glyphs plus the filled columns plus
one junction glyph between neighbouring columns. -/
theorem make_separator_length (cfg : CSV2TXT) (spaced : List Nat) (l c r : Str)
    (hH : cfg.H.length = 1) (hl : l.length = 1) (hc : c.length = 1) (hr : r.length = 1)
    (hsp : spaced ≠ []) :
    (make_separator cfg spaced l c r).length = sumNat spaced + (spaced.length - 1) + 2 := by
  have hmapne : spaced.map (fun w => pyRepeat cfg.H w) ≠ [] := by simp [hsp]
  rw [make_separator, List.length_append, List.length_append,
    pyJoin_length _ _ hmapne, hl, hc, hr]
  simp only [List.map_map, List.length_map]
  have hm : List.map (List.length ∘ fun w => pyRepeat cfg.H w) spaced = spaced := by
    have hfun : (List.length ∘ fun w => pyRepeat cfg.H w) = fun w : Nat => w := by
      funext w
      simp [Function.comp, pyRepeat_length, hH]
    rw [hfun]
    simp
  rw [hm]
  omega

/-! ## Claim C1 -/

/--
C1.  After wrapping, the grid is rectangular: every padded row has exactly
`cols = max(len(row) for row in rows)` cells, and for every original row
shorter than `cols`, the positions from its own length up to `cols` hold the
padding cell `['']` (a single empty-string line).
-/
theorem c1_grid_rectangular (cfg : CSV2TXT) (rows : List (List Str))
    (g : List (List (List Str))) (hne : rows ≠ [])
    (hg : gridCells cfg rows = .ok g) :
    (∀ r ∈ g, r.length = maxNat (rows.map List.length)) ∧
    (∀ (i : Nat) (r0 : List Str), rows[i]? = some r0 →
      ∃ r, g[i]? = some r ∧
        ∀ j, r0.length ≤ j → j < maxNat (rows.map List.length) →
          r[j]? = some [[]]) := by
  simp only [gridCells, Except.map] at hg
  cases hc : exMapM (fun row => exMapM (fun c => wrap_cell cfg (some c)) row) rows with
  | error e => rw [hc] at hg; cases hg
  | ok cells =>
    rw [hc] at hg
    cases hg
    constructor
    · intro r hr
      rcases List.mem_map.mp hr with ⟨c, hcmem, hpad⟩
      subst hpad
      rcases exMapM_ok_mem hc c hcmem with ⟨row₀, hrow₀, hfrow⟩
      have hlen : c.length = row₀.length := exMapM_ok_length hfrow
      have hle : row₀.length ≤ maxNat (rows.map List.length) :=
        le_maxNat (List.mem_map_of_mem List.length hrow₀)
      split
      · simp only [List.length_append, List.length_replicate]
        omega
      · omega
    · intro i r0 hi
      rcases exMapM_ok_getElem? hc hi with ⟨c, hci, hfc⟩
      have hlen : c.length = r0.length := exMapM_ok_length hfc
      refine ⟨if c.length < maxNat (rows.map List.length) then
          c ++ List.replicate (maxNat (rows.map List.length) - c.length) [[]]
        else c, ?_, ?_⟩
      · rw [List.getElem?_map, hci]
        rfl
      · intro j hj1 hj2
        have hclt : c.length < maxNat (rows.map List.length) := by omega
        rw [if_pos hclt, List.getElem?_append_right (by omega), List.getElem?_replicate,
          if_pos (by omega)]

/-- Witness for C1 on a two-row ragged input. -/
theorem c1_witness :
    (([[str "a"], [str "b", str "cc"]] : List (List Str)) ≠ [] ∧
      gridCells dfltCfg [[str "a"], [str "b", str "cc"]] =
        .ok [[[str "a"], [[]]], [[str "b"], [str "cc"]]]) ∧
    ((∀ r ∈ [[[str "a"], [[]]], [[str "b"], [str "cc"]]],
        r.length = maxNat (([[str "a"], [str "b", str "cc"]] : List (List Str)).map List.length)) ∧
      (∀ (i : Nat) (r0 : List Str), ([[str "a"], [str "b", str "cc"]] : List (List Str))[i]? = some r0 →
        ∃ r, ([[[str "a"], [[]]], [[str "b"], [str "cc"]]] :
            List (List (List Str)))[i]? = some r ∧
          ∀ j, r0.length ≤ j →
            j < maxNat (([[str "a"], [str "b", str "cc"]] : List (List Str)).map List.length) →
              r[j]? = some [[]])) :=
  ⟨⟨by decide, rfl⟩,
    c1_grid_rectangular dfltCfg [[str "a"], [str "b", str "cc"]]
      [[[str "a"], [[]]], [[str "b"], [str "cc"]]] (by decide) rfl⟩

/-! ## Claim C2 -/

/--
C2.  Provided all 11 border glyphs are single characters, the top, middle
and bottom separator lines built by `make_separator` over the same spaced
column widths all have length `totalWidth + 2`, where
`totalWidth = sum(contentWidth[col] + 2*spacing) + (numColumns - 1)`.
-/
theorem c2_separator_lengths (cfg : CSV2TXT) (widths : List Nat)
    (hH : cfg.H.length = 1) (hV : cfg.V.length = 1)
    (hTL : cfg.TL.length = 1) (hTM : cfg.TM.length = 1) (hTR : cfg.TR.length = 1)
    (hML : cfg.ML.length = 1) (hMM : cfg.MM.length = 1) (hMR : cfg.MR.length = 1)
    (hBL : cfg.BL.length = 1) (hBM : cfg.BM.length = 1) (hBR : cfg.BR.length = 1)
    (hw : widths ≠ []) :
    (make_separator cfg (spacedCols cfg widths) cfg.TL cfg.TM cfg.TR).length =
      totalWidth cfg widths + 2 ∧
    (make_separator cfg (spacedCols cfg widths) cfg.ML cfg.MM cfg.MR).length =
      totalWidth cfg widths + 2 ∧
    (make_separator cfg (spacedCols cfg widths) cfg.BL cfg.BM cfg.BR).length =
      totalWidth cfg widths + 2 := by
  have hsp : spacedCols cfg widths ≠ [] := by simp [spacedCols, hw]
  refine ⟨?_, ?_, ?_⟩
  · rw [make_separator_length cfg _ _ _ _ hH hTL hTM hTR hsp, totalWidth]
  · rw [make_separator_length cfg _ _ _ _ hH hML hMM hMR hsp, totalWidth]
  · rw [make_separator_length cfg _ _ _ _ hH hBL hBM hBR hsp, totalWidth]

/-- Witness for C2 at the default glyphs and content widths `[1, 2]`. -/
theorem c2_witness :
    (dfltCfg.H.length = 1 ∧ dfltCfg.V.length = 1 ∧ dfltCfg.TL.length = 1 ∧
      dfltCfg.TM.length = 1 ∧ dfltCfg.TR.length = 1 ∧ dfltCfg.ML.length = 1 ∧
      dfltCfg.MM.length = 1 ∧ dfltCfg.MR.length = 1 ∧ dfltCfg.BL.length = 1 ∧
      dfltCfg.BM.length = 1 ∧ dfltCfg.BR.length = 1 ∧ ([1, 2] : List Nat) ≠ []) ∧
    ((make_separator dfltCfg (spacedCols dfltCfg [1, 2]) dfltCfg.TL dfltCfg.TM dfltCfg.TR).length =
        totalWidth dfltCfg [1, 2] + 2 ∧
      (make_separator dfltCfg (spacedCols dfltCfg [1, 2]) dfltCfg.ML dfltCfg.MM dfltCfg.MR).length =
        totalWidth dfltCfg [1, 2] + 2 ∧
      (make_separator dfltCfg (spacedCols dfltCfg [1, 2]) dfltCfg.BL dfltCfg.BM dfltCfg.BR).length =
        totalWidth dfltCfg [1, 2] + 2) :=
  ⟨⟨rfl, rfl, rfl, rfl, rfl, rfl, rfl, rfl, rfl, rfl, rfl, by decide⟩,
    c2_separator_lengths dfltCfg [1, 2] rfl rfl rfl rfl rfl rfl rfl rfl rfl rfl rfl
      (by decide)⟩

/-! ## Claim C3 -/

/--
C3, counterexample.  The claim says an absent and a non-positive `maxWidth`
behave identically (no wrapping).  In the code, `if self.max_width:` is true
for any non-zero value, so a negative `maxWidth` reaches `textwrap.wrap`,
which raises `ValueError` — it does not behave like the no-wrapping case.
At `max_width = -1` on the cell `"x"`, `wrap_cell` raises instead of
returning `["x"]`.
-/
theorem c3_counterexample :
    wrap_cell { dfltCfg with max_width := some (-1) } (some (str "x")) =
      .error "invalid width (must be > 0)" ∧
    wrap_cell dfltCfg (some (str "x")) = .ok [str "x"] ∧
    wrap_cell { dfltCfg with max_width := some (-1) } (some (str "x")) ≠
      wrap_cell dfltCfg (some (str "x")) := by
  refine ⟨rfl, rfl, ?_⟩
  intro h
  rw [show wrap_cell { dfltCfg with max_width := some (-1) } (some (str "x")) =
        .error "invalid width (must be > 0)" from rfl,
      show wrap_cell dfltCfg (some (str "x")) = .ok [str "x"] from rfl] at h
  exact Except.noConfusion h

/--
C3, amended: when `maxWidth` is absent or exactly `0`, `wrap_cell` behaves
identically to the no-wrapping case — each line obtained by splitting on
line breaks is returned as-is (with a single empty line for an empty split);
word-wrap is applied whenever `maxWidth` is set and non-zero, and negative
values raise a `ValueError` in `textwrap.wrap`.
-/
theorem c3_amended (cfg : CSV2TXT) (t : Str)
    (hw : cfg.max_width = none ∨ cfg.max_width = some 0) :
    wrap_cell cfg (some t) =
      .ok (if splitlines (escape cfg t) = [] then [[]]
           else splitlines (escape cfg t)) :=
  wrap_cell_nowrap cfg t hw

/-- Witness for C3's amended theorem at `maxWidth` absent and cell `"hi"`. -/
theorem c3_witness :
    (dfltCfg.max_width = none ∨ dfltCfg.max_width = some 0) ∧
    wrap_cell dfltCfg (some (str "hi")) =
      .ok (if splitlines (escape dfltCfg (str "hi")) = [] then [[]]
           else splitlines (escape dfltCfg (str "hi"))) :=
  ⟨Or.inl rfl, c3_amended dfltCfg (str "hi") (Or.inl rfl)⟩

/-! ## Claim C4 -/

/--
C4, counterexample.  The claim says that even with `maxWidth` set, wrapping
an empty line still yields at least one line, so the output line count is at
least the input line count.  In the code, `textwrap.wrap('')` returns `[]`,
so blank lines are dropped: the cell `"a\n\nb"` (escaped line breaks) splits
into the three lines `["a", "", "b"]` but wraps (at width 5) to only two
output lines `["a", "b"]`.
-/
theorem c4_counterexample :
    wrap_cell { dfltCfg with max_width := some 5 } (some (str "a\\n\\nb")) =
      .ok [str "a", str "b"] ∧
    (splitlines (escape { dfltCfg with max_width := some 5 } (str "a\\n\\nb"))).length = 3 ∧
    ([str "a", str "b"] : List Str).length < 3 :=
  ⟨rfl, rfl, by decide⟩

/--
C4, amended: splitting on line-break sequences keeps blank lines as
empty-string entries, and when `maxWidth` is unset every split line is
returned as-is, so the number of output lines is at least the number of
input lines; but when `maxWidth` is set and positive, wrapping an empty line
yields zero lines, so blank lines are dropped and the output can have fewer
lines than the input.
-/
theorem c4_amended (cfg : CSV2TXT) (t : Str) (w : Int)
    (hn : cfg.max_width = none) (hw : 0 < w) :
    (wrap_cell cfg (some t) =
        .ok (if splitlines (escape cfg t) = [] then [[]]
             else splitlines (escape cfg t)) ∧
      (splitlines (escape cfg t)).length ≤
        (if splitlines (escape cfg t) = [] then [[]]
         else splitlines (escape cfg t)).length) ∧
    pyWrap [] w = .ok [] := by
  refine ⟨⟨wrap_cell_nowrap cfg t (Or.inl hn), ?_⟩, ?_⟩
  · split
    · simp_all
    · exact le_refl _
  · have h0 : ¬ w ≤ 0 := by omega
    simp [pyWrap, h0, splitWords, splitWordsGo, fillWords, sumNat, fillWordsGo]

/-- Witness for C4's amended theorem at `maxWidth` absent, cell `"p"`, and
positive width `7`. -/
theorem c4_witness :
    (dfltCfg.max_width = none ∧ (0 : Int) < 7) ∧
    ((wrap_cell dfltCfg (some (str "p")) =
        .ok (if splitlines (escape dfltCfg (str "p")) = [] then [[]]
             else splitlines (escape dfltCfg (str "p"))) ∧
      (splitlines (escape dfltCfg (str "p"))).length ≤
        (if splitlines (escape dfltCfg (str "p")) = [] then [[]]
         else splitlines (escape dfltCfg (str "p"))).length) ∧
    pyWrap [] 7 = .ok []) :=
  ⟨⟨rfl, by decide⟩, c4_amended dfltCfg (str "p") 7 rfl (by decide)⟩

/-! ## Claim C5 -/

/--
C5, counterexample.  The claim says the rendering pipeline raises no
exception for any well-typed input (`maxWidth` any optional int, rows of
strings).  Four failures: with `max_width = -1` (a well-typed
`Optional[int]`) the truthiness test sends every cell into
`textwrap.wrap(line, -1)`, which raises `ValueError`; when every parsed row
has zero cells (a blank input line, or a lone `"\r\n"` line, both of which
`csv.reader` turns into the zero-field row), the row loop evaluates
`max([])`, which raises `ValueError`; a line break embedded in an unquoted
field makes `csv.reader` raise `csv.Error`; and an unterminated quoted
field makes it raise `csv.Error` at the end of the data.
-/
theorem c5_counterexample :
    generate { dfltCfg with max_width := some (-1) } [str "a"] none =
      .error "invalid width (must be > 0)" ∧
    generate dfltCfg [str ""] none = .error "max() arg is an empty sequence" ∧
    generate dfltCfg [str "\r\n"] none = .error "max() arg is an empty sequence" ∧
    generate dfltCfg [str "a\nb"] none =
      .error "new-line character seen in unquoted field" ∧
    generate dfltCfg [str "\"a"] none = .error "unexpected end of data" :=
  ⟨rfl, rfl, rfl, rfl, rfl⟩

/--
C5, amended: the rendering pipeline raises no exception for well-typed input
provided `maxWidth` is absent or non-negative, the csv reader parses the
input without error, and the parsed rows are either empty or include a row
with at least one cell.  (A negative `maxWidth` raises in `textwrap.wrap`;
embedded line breaks and unterminated quotes raise `csv.Error` in the
reader; an input whose rows all have zero cells raises at `max()` over an
empty sequence.)  Alignment, vertical-alignment and title-presence branches
are total over their enumerated domains.
-/
theorem c5_amended (cfg : CSV2TXT) (input : List Str) (title : Option Str)
    (rows : List (List Str))
    (hw : cfg.max_width = none ∨ ∃ w, cfg.max_width = some w ∧ 0 ≤ w)
    (hrows : get_rows cfg input = .ok rows)
    (hr : rows = [] ∨ ∃ r ∈ rows, r ≠ []) :
    ∃ s, generate cfg input title = .ok s := by
  by_cases hre : rows = []
  · subst hre
    exact ⟨[], generate_of_no_rows cfg input title hrows⟩
  · rcases hr with h | ⟨r, hrmem, hrne⟩
    · exact absurd h hre
    · have hcols : 1 ≤ maxNat (rows.map List.length) := by
        have : r.length ∈ rows.map List.length :=
          List.mem_map_of_mem List.length hrmem
        have hlen : 1 ≤ r.length := by
          cases r with
          | nil => exact absurd rfl hrne
          | cons a l => simp
        exact le_trans hlen (le_maxNat this)
      rcases gridCells_ok cfg rows hw with ⟨g, hg⟩
      have hgrows : ∀ r' ∈ g, r' ≠ [] := by
        intro r' hr'
        have := gridCells_row_length cfg rows g hg r' hr'
        intro hnil
        rw [hnil] at this
        simp at this
        omega
      rcases exMapM_ok_of_forall
          (f := renderRow cfg (colsWidth g (maxNat (rows.map List.length))))
          (l := g)
          (fun r' hr' => renderRow_ok cfg _ r' (hgrows r' hr')) with ⟨body, hbody⟩
      cases hgen : generate cfg input title with
      | ok s => exact ⟨s, rfl⟩
      | error e =>
        unfold generate generate_lines at hgen
        rw [hrows] at hgen
        simp only [bind, Except.bind] at hgen
        rw [if_neg hre, hg] at hgen
        simp only [bind, Except.bind] at hgen
        rw [hbody] at hgen
        simp [Except.map, pure, Except.pure] at hgen

/-- Witness for C5's amended theorem on the default configuration and the
input line `"a,b"`. -/
theorem c5_witness :
    ((dfltCfg.max_width = none ∨ ∃ w, dfltCfg.max_width = some w ∧ 0 ≤ w) ∧
      get_rows dfltCfg [str "a,b"] = .ok [[str "a", str "b"]] ∧
      ([[str "a", str "b"]] = ([] : List (List Str)) ∨
        ∃ r ∈ ([[str "a", str "b"]] : List (List Str)), r ≠ [])) ∧
    ∃ s, generate dfltCfg [str "a,b"] none = .ok s :=
  ⟨⟨Or.inl rfl, rfl, Or.inr ⟨[str "a", str "b"], by decide, by decide⟩⟩,
    c5_amended dfltCfg [str "a,b"] none [[str "a", str "b"]] (Or.inl rfl) rfl
      (Or.inr ⟨[str "a", str "b"], by decide, by decide⟩)⟩

/-! ## Claim C6 -/

/--
C6.  For a cell of `col.length` lines padded to row height `h` with
`delta = h - col.length`: `top` appends `delta` empty lines after the
content, `bottom` prepends `delta` empty lines, and `middle` prepends
`delta // 2` and appends `delta - delta // 2` empty lines — so the padded
cell always has exactly `h` lines, and when `delta` is odd the extra blank
line goes below the content (`bottomPad = topPad + 1`).
-/
theorem c6_valign_padding (cfg : CSV2TXT) (h : Nat) (col : List Str)
    (hle : col.length ≤ h) :
    (cfg.valign = VAlign.top →
      vpad cfg h col = col ++ List.replicate (h - col.length) [] ∧
      (vpad cfg h col).length = h) ∧
    (cfg.valign = VAlign.bottom →
      vpad cfg h col = List.replicate (h - col.length) [] ++ col ∧
      (vpad cfg h col).length = h) ∧
    (cfg.valign = VAlign.middle →
      vpad cfg h col =
        List.replicate ((h - col.length) / 2) [] ++ col ++
          List.replicate ((h - col.length) - (h - col.length) / 2) [] ∧
      (vpad cfg h col).length = h ∧
      ((h - col.length) % 2 = 1 →
        (h - col.length) - (h - col.length) / 2 = (h - col.length) / 2 + 1)) := by
  refine ⟨?_, ?_, ?_⟩ <;> intro hv <;>
    simp [vpad, hv, List.length_append, List.length_replicate] <;> omega

/-- Witness for C6 at the default (middle) alignment, height 3, one line. -/
theorem c6_witness :
    ([str "x"].length ≤ 3) ∧
    ((dfltCfg.valign = VAlign.top →
      vpad dfltCfg 3 [str "x"] = [str "x"] ++ List.replicate (3 - [str "x"].length) [] ∧
      (vpad dfltCfg 3 [str "x"]).length = 3) ∧
    (dfltCfg.valign = VAlign.bottom →
      vpad dfltCfg 3 [str "x"] = List.replicate (3 - [str "x"].length) [] ++ [str "x"] ∧
      (vpad dfltCfg 3 [str "x"]).length = 3) ∧
    (dfltCfg.valign = VAlign.middle →
      vpad dfltCfg 3 [str "x"] =
        List.replicate ((3 - [str "x"].length) / 2) [] ++ [str "x"] ++
          List.replicate ((3 - [str "x"].length) - (3 - [str "x"].length) / 2) [] ∧
      (vpad dfltCfg 3 [str "x"]).length = 3 ∧
      ((3 - [str "x"].length) % 2 = 1 →
        (3 - [str "x"].length) - (3 - [str "x"].length) / 2 =
          (3 - [str "x"].length) / 2 + 1))) :=
  ⟨by decide, c6_valign_padding dfltCfg 3 [str "x"] (by decide)⟩

/-! ## Claim C7 -/

/--
C7.  For a non-empty parsed input and a non-empty title, the output begins
with exactly three lines: the full-width top border `TL + H*totalWidth + TR`
(no internal column junctions), then `V + alignedTitle + V` where
`alignedTitle` is `" {title} "` aligned to `totalWidth` with `titleAlign`,
then the separator `make_separator(ML, TM, MR)`.  When the title is absent
or empty, the plain top separator `make_separator(TL, TM, TR)` opens the
table instead.
-/
theorem c7_title_block (cfg : CSV2TXT) (input : List Str) (t : Str)
    (rows : List (List Str)) (g : List (List (List Str))) (ls : List Str)
    (ht : t ≠ []) (hrows : get_rows cfg input = .ok rows) (hr : rows ≠ [])
    (hg : gridCells cfg rows = .ok g)
    (hls : generate_lines cfg input (some t) = .ok ls) :
    ls.take 3 =
      [cfg.TL ++
          pyRepeat cfg.H (totalWidth cfg (colsWidth g (maxNat (rows.map List.length)))) ++
          cfg.TR,
        cfg.V ++
          align_text (' ' :: (t ++ [' ']))
            (totalWidth cfg (colsWidth g (maxNat (rows.map List.length))))
            cfg.title_align ++
          cfg.V,
        make_separator cfg
          (spacedCols cfg (colsWidth g (maxNat (rows.map List.length))))
          cfg.ML cfg.TM cfg.MR] ∧
    (∀ t' : Option Str, t' = none ∨ t' = some [] →
      ∀ ls', generate_lines cfg input t' = .ok ls' →
        ls'.take 1 =
          [make_separator cfg
            (spacedCols cfg (colsWidth g (maxNat (rows.map List.length))))
            cfg.TL cfg.TM cfg.TR]) := by
  unfold generate_lines at hls
  rw [hrows] at hls
  simp only [bind, Except.bind] at hls
  rw [if_neg hr, hg] at hls
  simp only [bind, Except.bind] at hls
  cases hbody : exMapM
      (renderRow cfg (colsWidth g (maxNat (rows.map List.length)))) g with
  | error e => rw [hbody] at hls; cases hls
  | ok body =>
    rw [hbody] at hls
    simp only [pure, Except.pure, Except.ok.injEq] at hls
    constructor
    · rw [← hls]
      simp only [headerLines, if_neg ht]
      rfl
    · intro t' ht' ls' hls'
      unfold generate_lines at hls'
      rw [hrows] at hls'
      simp only [bind, Except.bind] at hls'
      rw [if_neg hr, hg] at hls'
      simp only [bind, Except.bind] at hls'
      rw [hbody] at hls'
      simp only [pure, Except.pure, Except.ok.injEq] at hls'
      rw [← hls']
      rcases ht' with h | h <;> subst h <;> simp [headerLines]

/-- Witness for C7 on the single-cell input `"a"` with title `"T"` and the
default configuration. -/
theorem c7_witness :
    (str "T" ≠ [] ∧ get_rows dfltCfg [str "a"] = .ok [[str "a"]] ∧
      ([[str "a"]] : List (List Str)) ≠ [] ∧
      gridCells dfltCfg [[str "a"]] = .ok [[[str "a"]]] ∧
      generate_lines dfltCfg [str "a"] (some (str "T")) =
        .ok [str "┌───┐", str "│ T │", str "├───┤", str "│ a │", str "└───┘"]) ∧
    ([str "┌───┐", str "│ T │", str "├───┤", str "│ a │", str "└───┘"].take 3 =
      [dfltCfg.TL ++
          pyRepeat dfltCfg.H
            (totalWidth dfltCfg
              (colsWidth [[[str "a"]]] (maxNat (([[str "a"]] : List (List Str)).map List.length)))) ++
          dfltCfg.TR,
        dfltCfg.V ++
          align_text (' ' :: (str "T" ++ [' ']))
            (totalWidth dfltCfg
              (colsWidth [[[str "a"]]] (maxNat (([[str "a"]] : List (List Str)).map List.length))))
            dfltCfg.title_align ++
          dfltCfg.V,
        make_separator dfltCfg
          (spacedCols dfltCfg
            (colsWidth [[[str "a"]]] (maxNat (([[str "a"]] : List (List Str)).map List.length))))
          dfltCfg.ML dfltCfg.TM dfltCfg.MR] ∧
      (∀ t' : Option Str, t' = none ∨ t' = some [] →
        ∀ ls', generate_lines dfltCfg [str "a"] t' = .ok ls' →
          ls'.take 1 =
            [make_separator dfltCfg
              (spacedCols dfltCfg
                (colsWidth [[[str "a"]]]
                  (maxNat (([[str "a"]] : List (List Str)).map List.length))))
              dfltCfg.TL dfltCfg.TM dfltCfg.TR])) :=
  ⟨⟨by decide, rfl, by decide, rfl, rfl⟩,
    c7_title_block dfltCfg [str "a"] (str "T") [[str "a"]] [[[str "a"]]]
      [str "┌───┐", str "│ T │", str "├───┤", str "│ a │", str "└───┘"]
      (by decide) rfl (by decide) rfl rfl⟩

/-! ## Replace/parse lemmas for claim C8 -/

/-- `pyReplaceGo` does not depend on the fuel as long as it suffices. -/
theorem pyReplaceGo_fuel (pat rep : Str) :
    ∀ (n m : Nat) (s : Str), s.length ≤ n → s.length ≤ m →
      pyReplaceGo pat rep n s = pyReplaceGo pat rep m s := by
  intro n
  induction n with
  | zero =>
    intro m s hn _
    have hs : s = [] := List.length_eq_zero.mp (Nat.le_zero.mp hn)
    subst hs
    cases m <;> rfl
  | succ n ih =>
    intro m s hn hm
    cases s with
    | nil => cases m <;> rfl
    | cons c rest =>
      cases m with
      | zero => simp at hm
      | succ m' =>
        simp only [pyReplaceGo]
        split
        · rename_i hcond
          have hpat : 0 < pat.length := List.length_pos.mpr hcond.1
          congr 1
          apply ih
          · simp only [List.length_drop, List.length_cons]
            simp only [List.length_cons] at hn
            omega
          · simp only [List.length_drop, List.length_cons]
            simp only [List.length_cons] at hm
            omega
        · congr 1
          apply ih
          · simp only [List.length_cons] at hn; omega
          · simp only [List.length_cons] at hm; omega

/-- Scanning past characters that cannot start the pattern. -/
theorem pyReplaceGo_append (p : Char) (pat rep : Str) :
    ∀ (xs ys : Str), p ∉ xs → ∀ n, (xs ++ ys).length ≤ n →
      pyReplaceGo (p :: pat) rep n (xs ++ ys) =
        xs ++ pyReplaceGo (p :: pat) rep (n - xs.length) ys := by
  intro xs
  induction xs with
  | nil => intro ys _ n _; simp
  | cons c xs' ih =>
    intro ys hp n hn
    cases n with
    | zero => simp at hn
    | succ n' =>
      have hpc : p ≠ c := fun h => hp (h ▸ List.mem_cons_self c xs')
      simp only [List.cons_append, pyReplaceGo, List.append_eq]
      rw [if_neg]
      · rw [ih ys (fun h => hp (List.mem_cons_of_mem c h)) n'
            (by simp only [List.cons_append, List.length_cons] at hn; omega)]
        simp only [List.length_cons, List.cons_append]
        rw [show n' - xs'.length = n' + 1 - (xs'.length + 1) from by omega]
      · rintro ⟨-, hpre⟩
        simp only [List.isPrefixOf, Bool.and_eq_true, beq_iff_eq] at hpre
        exact hpc hpre.1

/-- The scan fires on a pattern occurrence at the head. -/
theorem pyReplaceGo_head (pat rep rest : Str) (hpat : pat ≠ []) :
    ∀ n, (pat ++ rest).length ≤ n →
      pyReplaceGo pat rep n (pat ++ rest) = rep ++ pyReplaceGo pat rep (n - 1) rest := by
  intro n hn
  cases hp : pat with
  | nil => exact absurd hp hpat
  | cons p pat' =>
    subst hp
    cases n with
    | zero => simp at hn
    | succ n' =>
      simp only [List.cons_append, pyReplaceGo, List.append_eq]
      rw [if_pos]
      · have hdrop : ((p :: (pat' ++ rest)).drop (p :: pat').length) = rest := by
          simp only [List.length_cons]
          show ((p :: pat') ++ rest).drop (p :: pat').length = rest
          exact List.drop_left _ _
        rw [hdrop]
        simp only [Nat.add_sub_cancel]
      · constructor
        · simp
        · have : (p :: pat') <+: ((p :: pat') ++ rest) := List.prefix_append _ _
          simpa [List.isPrefixOf_iff_prefix] using this

/-- `str.replace` distributes over an occurrence-free prefix. -/
theorem pyReplace_append_of_not_mem {p : Char} {xs : Str} (pat rep ys : Str)
    (hp : p ∉ xs) :
    pyReplace (xs ++ ys) (p :: pat) rep = xs ++ pyReplace ys (p :: pat) rep := by
  unfold pyReplace
  rw [pyReplaceGo_append p pat rep xs ys hp _ (le_refl _)]
  congr 1
  apply pyReplaceGo_fuel
  · simp
  · exact le_refl _

/-- `str.replace` fires on a pattern occurrence at the head. -/
theorem pyReplace_head_match (pat rep rest : Str) (hpat : pat ≠ []) :
    pyReplace (pat ++ rest) pat rep = rep ++ pyReplace rest pat rep := by
  unfold pyReplace
  rw [pyReplaceGo_head pat rep rest hpat _ (le_refl _)]
  congr 1
  apply pyReplaceGo_fuel
  · have : 0 < pat.length := List.length_pos.mpr hpat
    simp only [List.length_append]
    omega
  · exact le_refl _

/-- `str.replace` is the identity when the pattern head never occurs. -/
theorem pyReplace_of_not_mem {p : Char} {s : Str} (pat rep : Str) (hp : p ∉ s) :
    pyReplace s (p :: pat) rep = s := by
  have h0 : pyReplace ([] : Str) (p :: pat) rep = [] := rfl
  calc pyReplace s (p :: pat) rep
      = pyReplace (s ++ []) (p :: pat) rep := by rw [List.append_nil]
    _ = s ++ pyReplace [] (p :: pat) rep := pyReplace_append_of_not_mem pat rep [] hp
    _ = s := by rw [h0, List.append_nil]

/-- `str.replace` over a string alternating pattern-free chunks with pattern
occurrences, followed by a pattern-head-free connective `mid` and a tail. -/
theorem pyReplace_pyJoin_append (p : Char) (pat rep mid : Str) (hmid : p ∉ mid) :
    ∀ (segs : List Str) (L : Str), (∀ x ∈ segs, p ∉ x) →
      pyReplace (pyJoin (p :: pat) segs ++ mid ++ L) (p :: pat) rep =
        pyJoin rep segs ++ mid ++ pyReplace L (p :: pat) rep := by
  intro segs
  induction segs with
  | nil =>
    intro L _
    simpa using pyReplace_append_of_not_mem pat rep L hmid
  | cons x tail ih =>
    intro L hsegs
    have hx : p ∉ x := hsegs x (List.mem_cons_self x tail)
    cases tail with
    | nil =>
      show pyReplace (x ++ mid ++ L) (p :: pat) rep = x ++ mid ++ pyReplace L (p :: pat) rep
      rw [List.append_assoc, pyReplace_append_of_not_mem pat rep (mid ++ L) hx,
        pyReplace_append_of_not_mem pat rep L hmid, List.append_assoc]
    | cons y rest =>
      show pyReplace ((x ++ (p :: pat) ++ pyJoin (p :: pat) (y :: rest)) ++ mid ++ L)
          (p :: pat) rep =
        (x ++ rep ++ pyJoin rep (y :: rest)) ++ mid ++ pyReplace L (p :: pat) rep
      have hshape :
          (x ++ (p :: pat) ++ pyJoin (p :: pat) (y :: rest)) ++ mid ++ L =
            x ++ ((p :: pat) ++ (pyJoin (p :: pat) (y :: rest) ++ mid ++ L)) := by
        simp [List.append_assoc]
      rw [hshape, pyReplace_append_of_not_mem pat rep _ hx,
        pyReplace_head_match (p :: pat) rep _ (by simp),
        ih L (fun x' hx' => hsegs x' (List.mem_cons_of_mem x hx'))]
      simp [List.append_assoc]

/-- `str.replace` substitutes every occurrence in an alternation of
pattern-free chunks and pattern occurrences. -/
theorem pyReplace_pyJoin (p : Char) (pat rep : Str) (segs : List Str)
    (hsegs : ∀ x ∈ segs, p ∉ x) :
    pyReplace (pyJoin (p :: pat) segs) (p :: pat) rep = pyJoin rep segs := by
  have h := pyReplace_pyJoin_append p pat rep [] (by simp) segs [] hsegs
  have h0 : pyReplace ([] : Str) (p :: pat) rep = [] := rfl
  simpa [h0] using h

/-- The escaped-separator replacement of `get_rows` over a whole line built
from fields (each a list of backslash-free segments joined by the escape
sequence) joined by bare separators. -/
theorem pyReplace_escaped_line (sep : Char) (hsep : sep ≠ '\\') :
    ∀ pieces : List (List Str),
      (∀ segs ∈ pieces, ∀ x ∈ segs, '\\' ∉ x) →
      pyReplace (pyJoin [sep] (pieces.map (pyJoin ['\\', sep]))) ['\\', sep]
          comPlaceholder =
        pyJoin [sep] (pieces.map (pyJoin comPlaceholder)) := by
  intro pieces
  induction pieces with
  | nil => intro _; rfl
  | cons segs tail ih =>
    intro h
    have hbs : ∀ x ∈ segs, '\\' ∉ x := h segs (List.mem_cons_self segs tail)
    cases tail with
    | nil =>
      show pyReplace (pyJoin ['\\', sep] segs) ['\\', sep] comPlaceholder =
        pyJoin comPlaceholder segs
      exact pyReplace_pyJoin '\\' [sep] comPlaceholder segs hbs
    | cons q qs =>
      show pyReplace
          (pyJoin ['\\', sep] segs ++ [sep] ++
            pyJoin [sep] ((q :: qs).map (pyJoin ['\\', sep]))) ['\\', sep]
          comPlaceholder =
        pyJoin comPlaceholder segs ++ [sep] ++
          pyJoin [sep] ((q :: qs).map (pyJoin comPlaceholder))
      rw [pyReplace_pyJoin_append '\\' [sep] comPlaceholder [sep]
          (by simp [Ne.symm hsep]) segs _ hbs,
        ih (fun segs' hs' => h segs' (List.mem_cons_of_mem segs hs'))]

/-- Inside an unquoted field, a tail free of the separator and line breaks
extends the current field to the end of the line. -/
theorem csvGo_inField_toEnd (sep : Char) :
    ∀ (rest field : Str) (fields : List Str),
      (∀ c ∈ rest, c ≠ sep ∧ c ≠ '\n' ∧ c ≠ '\r') →
      csvGo sep .inField field fields rest = .ok (fields ++ [field ++ rest]) := by
  intro rest
  induction rest with
  | nil => intro field fields _; simp [csvGo]
  | cons c r ih =>
    intro field fields h
    obtain ⟨hc, hcn, hcr⟩ := h c (List.mem_cons_self c r)
    simp only [csvGo]
    rw [if_neg (by simp [hcn, hcr]), if_neg hc,
      ih (field ++ [c]) fields (fun c' hc' => h c' (List.mem_cons_of_mem c hc'))]
    simp

/-- Inside an unquoted field, a separator- and break-free stretch up to the
next bare separator closes the field there. -/
theorem csvGo_inField_sep (sep : Char) (hn : sep ≠ '\n') (hr : sep ≠ '\r') :
    ∀ (x field : Str) (fields : List Str) (rest : Str),
      (∀ c ∈ x, c ≠ sep ∧ c ≠ '\n' ∧ c ≠ '\r') →
      csvGo sep .inField field fields (x ++ sep :: rest) =
        csvGo sep .startField [] (fields ++ [field ++ x]) rest := by
  intro x
  induction x with
  | nil =>
    intro field fields rest _
    simp only [List.nil_append, csvGo]
    rw [if_neg (by simp [hn, hr])]
    simp
  | cons c x' ih =>
    intro field fields rest h
    obtain ⟨hc, hcn, hcr⟩ := h c (List.mem_cons_self c x')
    simp only [List.cons_append, csvGo, List.append_eq]
    rw [if_neg (by simp [hcn, hcr]), if_neg hc,
      ih (field ++ [c]) fields rest (fun c' hc' => h c' (List.mem_cons_of_mem c hc'))]
    simp

/-- From `START_FIELD`, a separator-joined list of fields whose characters
avoid the separator, line breaks, the quote and the space tokenizes to
exactly those fields. -/
theorem csvGo_startField_fields (sep : Char)
    (hn : sep ≠ '\n') (hr : sep ≠ '\r') (hq : sep ≠ '"') (hs : sep ≠ ' ') :
    ∀ (fs : List Str) (acc : List Str), fs ≠ [] →
      (∀ f ∈ fs, ∀ c ∈ f, c ≠ sep ∧ c ≠ '\n' ∧ c ≠ '\r' ∧ c ≠ '"' ∧ c ≠ ' ') →
      csvGo sep .startField [] acc (pyJoin [sep] fs) = .ok (acc ++ fs) := by
  intro fs
  induction fs with
  | nil => intro acc hne _; exact absurd rfl hne
  | cons f tail ih =>
    intro acc _ hsafe
    have hf : ∀ c ∈ f, c ≠ sep ∧ c ≠ '\n' ∧ c ≠ '\r' ∧ c ≠ '"' ∧ c ≠ ' ' :=
      hsafe f (List.mem_cons_self f tail)
    cases tail with
    | nil =>
      cases f with
      | nil => simp [pyJoin, csvGo]
      | cons c f' =>
        obtain ⟨hc, hcn, hcr, hcq, hcs⟩ := hf c (List.mem_cons_self c f')
        show csvGo sep .startField [] acc (c :: f') = .ok (acc ++ [c :: f'])
        simp only [csvGo]
        rw [if_neg (by simp [hcn, hcr]), if_neg hcq, if_neg hcs, if_neg hc,
          csvGo_inField_toEnd sep f' ([] ++ [c]) acc
            (fun c' hc' =>
              ⟨(hf c' (List.mem_cons_of_mem c hc')).1,
                (hf c' (List.mem_cons_of_mem c hc')).2.1,
                (hf c' (List.mem_cons_of_mem c hc')).2.2.1⟩)]
        simp
    | cons g gs =>
      have htail : ∀ f' ∈ g :: gs, ∀ c ∈ f',
          c ≠ sep ∧ c ≠ '\n' ∧ c ≠ '\r' ∧ c ≠ '"' ∧ c ≠ ' ' :=
        fun f' hf' => hsafe f' (List.mem_cons_of_mem f hf')
      cases f with
      | nil =>
        show csvGo sep .startField [] acc
            (([] : Str) ++ [sep] ++ pyJoin [sep] (g :: gs)) = .ok (acc ++ [] :: g :: gs)
        simp only [List.nil_append, List.cons_append, csvGo, List.append_eq]
        rw [if_neg (by simp [hn, hr]), if_neg hq, if_neg hs]
        simp [ih (acc ++ [[]]) (by simp) htail]
      | cons c f' =>
        obtain ⟨hc, hcn, hcr, hcq, hcs⟩ := hf c (List.mem_cons_self c f')
        show csvGo sep .startField [] acc
            ((c :: f') ++ [sep] ++ pyJoin [sep] (g :: gs)) =
          .ok (acc ++ (c :: f') :: g :: gs)
        have hshape : (c :: f') ++ [sep] ++ pyJoin [sep] (g :: gs) =
            c :: (f' ++ sep :: pyJoin [sep] (g :: gs)) := by
          simp
        rw [hshape]
        simp only [csvGo]
        rw [if_neg (by simp [hcn, hcr]), if_neg hcq, if_neg hcs, if_neg hc,
          csvGo_inField_sep sep hn hr f' ([] ++ [c]) acc (pyJoin [sep] (g :: gs))
            (fun c' hc' =>
              ⟨(hf c' (List.mem_cons_of_mem c hc')).1,
                (hf c' (List.mem_cons_of_mem c hc')).2.1,
                (hf c' (List.mem_cons_of_mem c hc')).2.2.1⟩),
          ih (acc ++ [[] ++ [c] ++ f']) (by simp) htail]
        simp

/-- Every character of a joined string comes from the connective or from one
of the parts. -/
theorem pyJoin_mem (s : Str) :
    ∀ (l : List Str) (c : Char), c ∈ pyJoin s l → c ∈ s ∨ ∃ x ∈ l, c ∈ x := by
  intro l
  induction l with
  | nil => intro c hc; cases hc
  | cons x tail ih =>
    cases tail with
    | nil =>
      intro c hc
      exact Or.inr ⟨x, List.mem_cons_self x [], hc⟩
    | cons y ys =>
      intro c hc
      show c ∈ s ∨ ∃ z ∈ x :: y :: ys, c ∈ z
      have hc' : c ∈ x ++ s ++ pyJoin s (y :: ys) := hc
      rcases List.mem_append.mp hc' with h1 | h1
      · rcases List.mem_append.mp h1 with h2 | h2
        · exact Or.inr ⟨x, List.mem_cons_self x (y :: ys), h2⟩
        · exact Or.inl h2
      · rcases ih c h1 with h2 | ⟨z, hz, hcz⟩
        · exact Or.inl h2
        · exact Or.inr ⟨z, List.mem_cons_of_mem x hz, hcz⟩

/-- A join by a non-empty connective is empty only in the degenerate cases. -/
theorem pyJoin_eq_nil (s : Str) (hs : s ≠ []) :
    ∀ l : List Str, pyJoin s l = [] → l = [] ∨ l = [[]] := by
  intro l
  match l with
  | [] => intro _; exact Or.inl rfl
  | [x] =>
    intro h
    exact Or.inr (by rw [show pyJoin s [x] = x from rfl] at h; rw [h])
  | x :: y :: rest =>
    intro h
    exfalso
    have h' : x ++ s ++ pyJoin s (y :: rest) = [] := h
    rcases List.append_eq_nil.mp h' with ⟨h1, -⟩
    exact hs (List.append_eq_nil.mp h1).2

/-- A separator-joined list of safe fields parses to exactly those fields
(provided the line itself is non-empty). -/
theorem parseCsvLine_fields (sep : Char)
    (hn : sep ≠ '\n') (hr : sep ≠ '\r') (hq : sep ≠ '"') (hs : sep ≠ ' ')
    (fs : List Str) (hfs : fs ≠ []) (hline : pyJoin [sep] fs ≠ [])
    (hsafe : ∀ f ∈ fs, ∀ c ∈ f,
      c ≠ sep ∧ c ≠ '\n' ∧ c ≠ '\r' ∧ c ≠ '"' ∧ c ≠ ' ') :
    parseCsvLine sep (pyJoin [sep] fs) = .ok fs := by
  cases hl : pyJoin [sep] fs with
  | nil => exact absurd hl hline
  | cons c rest =>
    have hcmem : c ∈ pyJoin [sep] fs := by
      rw [hl]; exact List.mem_cons_self c rest
    have hcnl : ¬(c = '\n' ∨ c = '\r') := by
      rcases pyJoin_mem [sep] fs c hcmem with h | ⟨x, hx, hcx⟩
      · have : c = sep := by simpa using h
        subst this
        simp [hn, hr]
      · obtain ⟨-, h2, h3, -, -⟩ := hsafe x hx c hcx
        simp [h2, h3]
    show parseCsvLine sep (c :: rest) = .ok fs
    simp only [parseCsvLine]
    rw [if_neg hcnl, ← hl]
    have := csvGo_startField_fields sep hn hr hq hs fs [] hfs hsafe
    simpa using this

/-! ## Claim C8 -/

/--
C8, counterexample.  The claim quantifies over every configured separator,
but the `__COMMA__` placeholder mechanism breaks it when the separator is
drawn from the placeholder's own characters: with `separator = '_'`, the
line `"a\_b"` (one escaped separator) becomes `"a__COMMA__b"` after
substitution, which the reader splits at every `'_'` into the five fields
`["a", "", "COMMA", "", "b"]` — the escaped occurrence is treated as field
boundaries, and no parsed field contains a literal separator at all.
-/
theorem c8_counterexample :
    get_rows { dfltCfg with separator := '_' } [str "a\\_b"] =
      .ok [[str "a", str "", str "COMMA", str "", str "b"]] ∧
    (∀ f ∈ [str "a", str "", str "COMMA", str "", str "b"], ('_' : Char) ∉ f) ∧
    [str "a", str "", str "COMMA", str "", str "b"] ≠ [str "a_b"] :=
  ⟨rfl, by decide, by decide⟩

/--
C8, amended.  For a line built from fields joined by the configured
separator, where each field is a list of segments joined by escaped
separators (backslash + separator), every escaped separator is parsed by
`get_rows` as a literal separator character inside its field, not as a field
boundary — covering multi-field lines and any number of escapes per field —
provided the segments avoid the separator, backslash, underscore, quote,
space and line-break characters and the separator itself is none of
backslash, quote, space, line break, or a character of the `'__COMMA__'`
placeholder (line breaks raise `csv.Error`, a leading quote or space
triggers csv quoting or `skipinitialspace`, and underscores or
placeholder-charset separators collide with the placeholder mechanism, which
the counterexample shows breaks the claim).  And the escaping step turns
every backslash-`n` two-character sequence into an actual line-break
character before wrapping (stated for occurrences whose prefix is
backslash-free).
-/
theorem c8_amended (cfg : CSV2TXT) (pieces : List (List Str)) (a b : Str)
    (hne : pieces ≠ []) (hd1 : pieces ≠ [[]]) (hd2 : pieces ≠ [[[]]])
    (hchars : ∀ segs ∈ pieces, ∀ x ∈ segs, ∀ c ∈ x,
      c ≠ cfg.separator ∧ c ≠ '\\' ∧ c ≠ '_' ∧ c ≠ '"' ∧ c ≠ ' ' ∧
        c ≠ '\n' ∧ c ≠ '\r')
    (hsep : cfg.separator ≠ '\\' ∧ cfg.separator ≠ '"' ∧ cfg.separator ≠ ' ' ∧
      cfg.separator ≠ '\n' ∧ cfg.separator ≠ '\r' ∧
      cfg.separator ∉ comPlaceholder)
    (ha : '\\' ∉ a) :
    get_rows cfg
        [pyJoin [cfg.separator] (pieces.map (pyJoin ['\\', cfg.separator]))] =
      .ok [pieces.map (pyJoin [cfg.separator])] ∧
    escape cfg (a ++ '\\' :: 'n' :: b) = a ++ '\n' :: escape cfg b := by
  obtain ⟨hsb, hsq, hss, hsn, hsr, hscom⟩ := hsep
  constructor
  · have hstep1 :=
      pyReplace_escaped_line cfg.separator hsb pieces
        (fun segs hsegs x hx hbs => (hchars segs hsegs x hx '\\' hbs).2.1 rfl)
    have hfs_ne : pieces.map (pyJoin comPlaceholder) ≠ [] := by
      simpa using hne
    have hcomsafe : ∀ c ∈ comPlaceholder,
        c ≠ '\n' ∧ c ≠ '\r' ∧ c ≠ '"' ∧ c ≠ ' ' := by decide
    have hsafe_fields : ∀ f ∈ pieces.map (pyJoin comPlaceholder), ∀ c ∈ f,
        c ≠ cfg.separator ∧ c ≠ '\n' ∧ c ≠ '\r' ∧ c ≠ '"' ∧ c ≠ ' ' := by
      intro f hf c hc
      rcases List.mem_map.mp hf with ⟨segs, hsegs, hfe⟩
      subst hfe
      rcases pyJoin_mem comPlaceholder segs c hc with h | ⟨x, hx, hcx⟩
      · obtain ⟨h1, h2, h3, h4⟩ := hcomsafe c h
        exact ⟨fun he => hscom (he ▸ h), h1, h2, h3, h4⟩
      · obtain ⟨g1, -, -, g4, g5, g6, g7⟩ := hchars segs hsegs x hx c hcx
        exact ⟨g1, g6, g7, g4, g5⟩
    have hline_ne : pyJoin [cfg.separator] (pieces.map (pyJoin comPlaceholder)) ≠ [] := by
      intro h
      rcases pyJoin_eq_nil [cfg.separator] (by simp)
          (pieces.map (pyJoin comPlaceholder)) h with h' | h'
      · exact hfs_ne h'
      · cases pieces with
        | nil => exact hne rfl
        | cons segs tail =>
          simp only [List.map_cons, List.cons.injEq] at h'
          obtain ⟨hseg0, htail0⟩ := h'
          have htail : tail = [] := by simpa using htail0
          subst htail
          rcases pyJoin_eq_nil comPlaceholder (by decide) segs hseg0 with h'' | h''
          · subst h''; exact hd1 rfl
          · subst h''; exact hd2 rfl
    have hstep2 :=
      parseCsvLine_fields cfg.separator hsn hsr hsq hss
        (pieces.map (pyJoin comPlaceholder)) hfs_ne hline_ne hsafe_fields
    have hstep3 : (pieces.map (pyJoin comPlaceholder)).map
        (fun cell => pyReplace cell comPlaceholder [cfg.separator]) =
          pieces.map (pyJoin [cfg.separator]) := by
      rw [List.map_map]
      apply List.map_congr_left
      intro segs hsegs
      show pyReplace (pyJoin comPlaceholder segs) comPlaceholder [cfg.separator] =
        pyJoin [cfg.separator] segs
      have hcom : comPlaceholder = '_' :: str "_COMMA__" := rfl
      rw [hcom]
      exact pyReplace_pyJoin '_' (str "_COMMA__") [cfg.separator] segs
        (fun x hx hu => (hchars segs hsegs x hx '_' hu).2.2.1 rfl)
    show (exMapM (parseCsvLine cfg.separator)
        ([pyJoin [cfg.separator] (pieces.map (pyJoin ['\\', cfg.separator]))].map
          (fun l => pyReplace l ['\\', cfg.separator] comPlaceholder))).map
        (List.map (List.map (fun cell => pyReplace cell comPlaceholder [cfg.separator]))) =
      .ok [pieces.map (pyJoin [cfg.separator])]
    simp only [List.map_cons, List.map_nil, hstep1]
    simp only [exMapM, hstep2, bind, Except.bind, pure, Except.pure]
    simp [Except.map, hstep3]
  · show pyReplace
        (pyReplace (a ++ '\\' :: 'n' :: b) ['\\', 'n'] ['\n'])
        ['\\', cfg.separator] [cfg.separator] = _
    rw [pyReplace_append_of_not_mem _ _ _ ha]
    rw [show ('\\' :: 'n' :: b) = ['\\', 'n'] ++ b from rfl]
    rw [pyReplace_head_match _ _ _ (by simp)]
    rw [show (['\n'] ++ pyReplace b ['\\', 'n'] ['\n']) =
      '\n' :: pyReplace b ['\\', 'n'] ['\n'] from rfl]
    rw [show (a ++ '\n' :: pyReplace b ['\\', 'n'] ['\n']) =
      a ++ (['\n'] ++ pyReplace b ['\\', 'n'] ['\n']) from by simp]
    rw [← List.append_assoc]
    rw [pyReplace_append_of_not_mem _ _ _ (by
      intro h
      rcases List.mem_append.mp h with h' | h'
      · exact ha h'
      · simp at h')]
    simp [escape]

/-- Witness for C8's amended theorem on the multi-field line `"a,b\,c"`
(fields `["a"]` and `["b", "c"]`) and cell text `"p\nq"`. -/
theorem c8_witness :
    (([[str "a"], [str "b", str "c"]] : List (List Str)) ≠ [] ∧
      ([[str "a"], [str "b", str "c"]] : List (List Str)) ≠ [[]] ∧
      ([[str "a"], [str "b", str "c"]] : List (List Str)) ≠ [[[]]] ∧
      (∀ segs ∈ ([[str "a"], [str "b", str "c"]] : List (List Str)), ∀ x ∈ segs, ∀ c ∈ x,
        c ≠ dfltCfg.separator ∧ c ≠ '\\' ∧ c ≠ '_' ∧ c ≠ '"' ∧ c ≠ ' ' ∧
          c ≠ '\n' ∧ c ≠ '\r') ∧
      (dfltCfg.separator ≠ '\\' ∧ dfltCfg.separator ≠ '"' ∧ dfltCfg.separator ≠ ' ' ∧
        dfltCfg.separator ≠ '\n' ∧ dfltCfg.separator ≠ '\r' ∧
        dfltCfg.separator ∉ comPlaceholder) ∧
      ('\\' ∉ str "p")) ∧
    (get_rows dfltCfg
        [pyJoin [dfltCfg.separator]
          (([[str "a"], [str "b", str "c"]] : List (List Str)).map
            (pyJoin ['\\', dfltCfg.separator]))] =
      .ok [([[str "a"], [str "b", str "c"]] : List (List Str)).map
        (pyJoin [dfltCfg.separator])] ∧
    escape dfltCfg (str "p" ++ '\\' :: 'n' :: str "q") =
      str "p" ++ '\n' :: escape dfltCfg (str "q")) :=
  ⟨⟨by decide, by decide, by decide, by decide,
      ⟨by decide, by decide, by decide, by decide, by decide, by decide⟩, by decide⟩,
    c8_amended dfltCfg [[str "a"], [str "b", str "c"]] (str "p") (str "q")
      (by decide) (by decide) (by decide) (by decide)
      ⟨by decide, by decide, by decide, by decide, by decide, by decide⟩
      (by decide)⟩

/-! ## Claim C9 -/

/--
C9.  For every configuration and title, when the parsed input contains zero
rows, `generate` returns exactly the empty string — no borders, no title
block, and no error.
-/
theorem c9_empty_rows (cfg : CSV2TXT) (input : List Str) (title : Option Str)
    (h : get_rows cfg input = .ok []) : generate cfg input title = .ok [] :=
  generate_of_no_rows cfg input title h

/-- Witness for C9 on empty input with a title present. -/
theorem c9_witness :
    get_rows dfltCfg [] = .ok [] ∧ generate dfltCfg [] (some (str "T")) = .ok [] :=
  ⟨rfl, c9_empty_rows dfltCfg [] (some (str "T")) rfl⟩

/-! ## Claim C10 -/

/--
C10.  `get_rows` routes escaped separators through the fixed `'__COMMA__'`
placeholder and substitutes the separator back for every occurrence of the
placeholder afterwards; consequently a raw cell that literally contains
`'__COMMA__'` (with no escaped separator anywhere) is corrupted: the parsed
cell is the raw text with the placeholder replaced by the separator.
-/
theorem c10_placeholder_collision :
    get_rows dfltCfg [str "x__COMMA__y"] = .ok [[str "x,y"]] ∧
    str "x,y" ≠ str "x__COMMA__y" := by
  exact ⟨rfl, by decide⟩

end Csv2txt
